import Mathlib

/-!
Shallow embedding of `SampleFromTimeseriesBucket`
(src/mongo/db/exec/sample_from_timeseries_bucket.h): a plan stage that runs
one iteration of the ARHASH algorithm per `doWork` call, sampling a random
measurement from a randomly sampled time-series bucket without replacement.

The header supplies `isEOF`, the `SampledMeasurementKey` struct (constructor,
`operator==`, hasher) and the member layout.  The bodies of the constructor
and `doWork` live in a translation unit that is not part of this repository
snapshot; those are modelled from the specification (sections 4.1 and 6), as
flagged in their doc comments.
-/

/-- A 12-byte ObjectId, viewed exactly as the hasher in the source reads it:
the first 8 bytes as a 64-bit word and the last 4 bytes as a 32-bit word.
Opaque to the stage beyond equality and hashing. -/
structure OID where
  word0 : Nat
  word8 : Nat
deriving DecidableEq, Repr

/-- C++ value conversion from a 64-bit signed integer to a 32-bit signed
integer: reduction modulo 2^32 into the interval [-2^31, 2^31). -/
def int32ofInt64 (x : Int) : Int :=
  (x + 2 ^ 31) % 2 ^ 32 - 2 ^ 31

/-- Carries the bucket `_id` and index for the measurement that was sampled.
The `measurementIndex` field is declared `int32_t` in the source; its value is
always the image of `int32ofInt64`. -/
structure SampledMeasurementKey where
  bucketId : OID
  measurementIndex : Int
deriving DecidableEq, Repr

/-- The source constructor `SampledMeasurementKey(OID bucketId, int64_t
measurementIndex)`: the 64-bit index argument initializes the 32-bit field,
truncating modulo 2^32. -/
def SampledMeasurementKey.make (bucketId : OID) (measurementIndex : Int) :
    SampledMeasurementKey :=
  ⟨bucketId, int32ofInt64 measurementIndex⟩

/-- `SampledMeasurementKey::operator==`: both components must match. -/
def SampledMeasurementKey.beq (a k : SampledMeasurementKey) : Bool :=
  a.bucketId == k.bucketId && a.measurementIndex == k.measurementIndex

/-- `SampledMeasurementKeyHasher::operator()`: XOR of a hash of the first
8 identifier bytes, a hash of the last 4 identifier bytes, and a hash of the
stored 32-bit measurement index.  The three `absl::Hash` instances are
external to the repository, so they are abstract parameters here. -/
def SampledMeasurementKeyHasher (h64 h32 : Nat → Nat) (hIdx : Int → Nat)
    (s : SampledMeasurementKey) : Nat :=
  h64 s.bucketId.word0 ^^^ h32 s.bucketId.word8 ^^^ hIdx s.measurementIndex

/-- The opaque bucket handle, as the stage sees it through the bucket
unpacker: its `_id` and the number of measurements actually stored. -/
structure Bucket where
  bucketId : OID
  recordCount : Nat
deriving DecidableEq, Repr

/-- State-machine answer of the child (upstream bucket supplier) to one
`work` call. -/
inductive ChildResponse where
  | advanced (b : Bucket)
  | needTime
  | needYield
  | eof
deriving DecidableEq, Repr

/-- Result of one `doWork` call of the sampling stage. -/
inductive StageOutput where
  | advanced (bucketId : OID) (idx : Nat)
  | needTime
  | needYield
  | eof
  | fatal
deriving DecidableEq, Repr

/-- The mutable members of `SampleFromTimeseriesBucket` that the claims are
about: the immutable configuration (`_sampleSize`, `_bucketMaxCount`), the
accepted-sample counter `_nSampledSoFar`, the rejection counter, and the
seen set `_seenSet` used to de-duplicate sampled measurements. -/
structure StageState where
  sampleSize : Nat
  bucketMaxCount : Nat
  nSampledSoFar : Nat
  nRejected : Nat
  seenSet : List SampledMeasurementKey
deriving DecidableEq, Repr

/-- `SampleFromTimeseriesBucket::isEOF`: `_nSampledSoFar >= _sampleSize`. -/
def isEOF (s : StageState) : Bool :=
  s.sampleSize ≤ s.nSampledSoFar

/-- Probe of the seen set with the key hasher and `operator==`: membership of
a key in `_seenSet`. -/
def seenContains (l : List SampledMeasurementKey) (k : SampledMeasurementKey) :
    Bool :=
  l.any fun e => SampledMeasurementKey.beq e k

/-- Modelled from the spec: the constructor body of
`SampleFromTimeseriesBucket` is not in this repository snapshot (only its
declaration is).  Per spec section 6, the counters start at zero except the
rejection counter, which is seeded from the caller-supplied
`worksSinceLastAdvanced` continuity value, and the seen set starts empty. -/
def SampleFromTimeseriesBucket.init (worksSinceLastAdvanced sampleSize bucketMaxCount : Nat) :
    StageState :=
  { sampleSize := sampleSize
    bucketMaxCount := bucketMaxCount
    nSampledSoFar := 0
    nRejected := worksSinceLastAdvanced
    seenSet := [] }

/-- The key formed from a produced (bucket identifier, drawn index) pair. -/
def toKey (p : OID × Nat) : SampledMeasurementKey :=
  SampledMeasurementKey.make p.1 (Int.ofNat p.2)

/-- Modelled from the spec: the body of `SampleFromTimeseriesBucket::doWork`
is not in this repository snapshot (only its declaration is).  This follows
the per-trial algorithm of spec section 4.1: report exhaustion when the
accepted count has reached the target; propagate the supplier's state
verbatim (supplier exhaustion is fatal); reject a drawn index that lands past
the bucket's real record count, or one whose key is already in the seen set,
incrementing the rejection counter; otherwise record the key, count the
sample and return the materialized record.  The supplier's answer and the
drawn index are inputs, making the environment's nondeterminism explicit. -/
def doWork (s : StageState) (resp : ChildResponse) (j : Nat) :
    StageState × StageOutput :=
  if isEOF s then (s, .eof)
  else
    match resp with
    | .needTime => (s, .needTime)
    | .needYield => (s, .needYield)
    | .eof => (s, .fatal)
    | .advanced b =>
      if b.recordCount ≤ j then
        ({ s with nRejected := s.nRejected + 1 }, .needTime)
      else
        let key := toKey (b.bucketId, j)
        if seenContains s.seenSet key then
          ({ s with nRejected := s.nRejected + 1 }, .needTime)
        else
          ({ s with
              seenSet := key :: s.seenSet
              nSampledSoFar := s.nSampledSoFar + 1 },
            .advanced b.bucketId j)

/-- A run: the sequence of states and outputs of successive `doWork` calls,
driven by a list of (supplier answer, drawn index) inputs. -/
def runStage (s : StageState) : List (ChildResponse × Nat) → StageState × List StageOutput
  | [] => (s, [])
  | (resp, j) :: rest =>
    let step := doWork s resp j
    let tail := runStage step.1 rest
    (tail.1, step.2 :: tail.2)

/-- The (bucket identifier, drawn index) pairs behind the records a run
produced, in order. -/
def producedPairs : List StageOutput → List (OID × Nat)
  | [] => []
  | StageOutput.advanced b i :: rest => (b, i) :: producedPairs rest
  | _ :: rest => producedPairs rest

/-- The seen-set keys of the records a run produced, in order. -/
def producedKeys (outs : List StageOutput) : List SampledMeasurementKey :=
  (producedPairs outs).map toKey

/-- The number of records a run produced. -/
def numProduced (outs : List StageOutput) : Nat :=
  (producedPairs outs).length

/-- States reachable from a given initial state by `doWork` calls. -/
inductive Reachable (s0 : StageState) : StageState → Prop
  | refl : Reachable s0 s0
  | step (s : StageState) (resp : ChildResponse) (j : Nat) :
      Reachable s0 s → Reachable s0 (doWork s resp j).1

/-- Modelled from the spec: the statistics query (spec sections 4.1 and 6);
the stage exposes the accepted-sample count, the rejection count and the
configured target.  `SampleFromTimeseriesBucketStats` itself is declared in a
header that is not part of this repository snapshot. -/
structure StatsView where
  nSampledSoFar : Nat
  nRejected : Nat
  sampleSize : Nat
deriving DecidableEq, Repr

/-- Modelled from the spec: `getSpecificStats`, read-only view of the
counters. -/
def getStats (s : StageState) : StatsView :=
  ⟨s.nSampledSoFar, s.nRejected, s.sampleSize⟩

/-! ### Basic lemmas about keys and the seen set -/

theorem SampledMeasurementKey.beq_iff (a k : SampledMeasurementKey) :
    SampledMeasurementKey.beq a k = true
      ↔ a.bucketId = k.bucketId ∧ a.measurementIndex = k.measurementIndex := by
  cases a
  cases k
  simp [SampledMeasurementKey.beq]

theorem SampledMeasurementKey.beq_iff_eq (a k : SampledMeasurementKey) :
    SampledMeasurementKey.beq a k = true ↔ a = k := by
  rw [SampledMeasurementKey.beq_iff]
  cases a
  cases k
  simp

theorem seenContains_nil (k : SampledMeasurementKey) :
    seenContains [] k = false := rfl

theorem seenContains_cons (e k : SampledMeasurementKey)
    (l : List SampledMeasurementKey) :
    seenContains (e :: l) k = (SampledMeasurementKey.beq e k || seenContains l k) := by
  simp [seenContains]

theorem seenContains_iff_mem (l : List SampledMeasurementKey)
    (k : SampledMeasurementKey) :
    seenContains l k = true ↔ k ∈ l := by
  induction l with
  | nil => simp [seenContains]
  | cons e l ih =>
    rw [seenContains_cons]
    simp only [Bool.or_eq_true, ih, SampledMeasurementKey.beq_iff_eq, List.mem_cons]
    constructor
    · rintro (h | h)
      · exact Or.inl h.symm
      · exact Or.inr h
    · rintro (h | h)
      · exact Or.inl h.symm
      · exact Or.inr h

theorem int32ofInt64_congr (i j : Int) (h : i % 2 ^ 32 = j % 2 ^ 32) :
    int32ofInt64 i = int32ofInt64 j := by
  unfold int32ofInt64
  rw [Int.add_emod, h, ← Int.add_emod]

theorem int32ofInt64_range (i : Int) :
    -(2 ^ 31) ≤ int32ofInt64 i ∧ int32ofInt64 i < 2 ^ 31 := by
  unfold int32ofInt64
  have h1 : 0 ≤ (i + 2 ^ 31) % 2 ^ 32 := Int.emod_nonneg _ (by norm_num)
  have h2 : (i + 2 ^ 31) % 2 ^ 32 < 2 ^ 32 := Int.emod_lt_of_pos _ (by norm_num)
  omega

/-! ### Claim C7: key equality -/

/-- C7: for every pair of sampled-measurement keys, `operator==` holds iff
both the bucket identifiers are equal and the measurement indices are
equal. -/
theorem sampledMeasurementKey_eq_iff_components (a k : SampledMeasurementKey) :
    SampledMeasurementKey.beq a k = true
      ↔ a.bucketId = k.bucketId ∧ a.measurementIndex = k.measurementIndex :=
  SampledMeasurementKey.beq_iff a k

/-! ### Claim C9: seeded rejection counter -/

/-- C9: constructing the stage with an initial rejection-counter seed of 5
and performing 0 trials yields a statistics query reporting rejection count 5
(together with 0 accepted samples and the configured target). -/
theorem stats_after_construction_with_seed_five (n c : Nat) :
    getStats (SampleFromTimeseriesBucket.init 5 n c) = ⟨0, 5, n⟩ := rfl

/-! ### Claim C10: the key constructor truncates the index to 32 bits -/

/-- C10: the key constructor accepts a 64-bit measurement index but stores it
in a 32-bit field, so for every bucket identifier and every two 64-bit
indices congruent modulo 2^32 the constructed keys are equal, compare equal
under `operator==`, and hash identically for any choice of the three
component hash functions; the stored field always lies in the 32-bit signed
range. -/
theorem sampledMeasurementKey_truncates_index (b : OID) (i j : Int)
    (h64 h32 : Nat → Nat) (hIdx : Int → Nat)
    (hi : -(2 ^ 63) ≤ i ∧ i < 2 ^ 63) (hj : -(2 ^ 63) ≤ j ∧ j < 2 ^ 63)
    (hmod : i % 2 ^ 32 = j % 2 ^ 32) :
    SampledMeasurementKey.make b i = SampledMeasurementKey.make b j
    ∧ SampledMeasurementKey.beq (SampledMeasurementKey.make b i)
        (SampledMeasurementKey.make b j) = true
    ∧ SampledMeasurementKeyHasher h64 h32 hIdx (SampledMeasurementKey.make b i)
        = SampledMeasurementKeyHasher h64 h32 hIdx (SampledMeasurementKey.make b j)
    ∧ -(2 ^ 31) ≤ (SampledMeasurementKey.make b i).measurementIndex
    ∧ (SampledMeasurementKey.make b i).measurementIndex < 2 ^ 31 := by
  have hkey : SampledMeasurementKey.make b i = SampledMeasurementKey.make b j := by
    unfold SampledMeasurementKey.make
    rw [int32ofInt64_congr i j hmod]
  refine ⟨hkey, ?_, by rw [hkey], ?_, ?_⟩
  · rw [hkey, SampledMeasurementKey.beq_iff_eq]
  · exact (int32ofInt64_range i).1
  · exact (int32ofInt64_range i).2

/-- Concrete instance of C10: indices 1 and 1 + 2^32 yield identical keys. -/
theorem sampledMeasurementKey_truncates_index_witness :
    SampledMeasurementKey.make ⟨0, 0⟩ 1 = SampledMeasurementKey.make ⟨0, 0⟩ (1 + 2 ^ 32)
    ∧ SampledMeasurementKey.beq (SampledMeasurementKey.make ⟨0, 0⟩ 1)
        (SampledMeasurementKey.make ⟨0, 0⟩ (1 + 2 ^ 32)) = true
    ∧ SampledMeasurementKeyHasher (fun x => x) (fun x => x) Int.toNat
        (SampledMeasurementKey.make ⟨0, 0⟩ 1)
        = SampledMeasurementKeyHasher (fun x => x) (fun x => x) Int.toNat
            (SampledMeasurementKey.make ⟨0, 0⟩ (1 + 2 ^ 32))
    ∧ -(2 ^ 31) ≤ (SampledMeasurementKey.make ⟨0, 0⟩ 1).measurementIndex
    ∧ (SampledMeasurementKey.make ⟨0, 0⟩ 1).measurementIndex < 2 ^ 31 :=
  sampledMeasurementKey_truncates_index ⟨0, 0⟩ 1 (1 + 2 ^ 32)
    (fun x => x) (fun x => x) Int.toNat
    (by norm_num) (by norm_num) (by decide)

/-! ### Claim C5: rejection of an index past the real record count -/

/-- C5: a trial on a bucket whose real record count is below the capacity,
with a drawn candidate index at least that count, yields exactly a
one-more-rejection state change and a try-again answer; in particular the
seen set and the accepted-sample counter are untouched. -/
theorem doWork_rejects_unpopulated_slot (s : StageState) (b : Bucket) (j : Nat)
    (hEof : isEOF s = false) (hcap : b.recordCount < s.bucketMaxCount)
    (hjcap : j < s.bucketMaxCount) (hj : b.recordCount ≤ j) :
    doWork s (ChildResponse.advanced b) j
      = ({ s with nRejected := s.nRejected + 1 }, StageOutput.needTime) := by
  simp [doWork, hEof, hj]

/-- Concrete instance of C5: capacity 4, a bucket with 2 real records, drawn
index 3. -/
theorem doWork_rejects_unpopulated_slot_witness :
    isEOF (SampleFromTimeseriesBucket.init 0 1 4) = false
    ∧ (2 : Nat) < 4 ∧ (3 : Nat) < 4 ∧ (2 : Nat) ≤ 3
    ∧ doWork (SampleFromTimeseriesBucket.init 0 1 4)
        (ChildResponse.advanced ⟨⟨7, 9⟩, 2⟩) 3
        = ({ SampleFromTimeseriesBucket.init 0 1 4 with
              nRejected := (SampleFromTimeseriesBucket.init 0 1 4).nRejected + 1 },
            StageOutput.needTime) :=
  ⟨by decide, by decide, by decide, by decide,
    doWork_rejects_unpopulated_slot (SampleFromTimeseriesBucket.init 0 1 4)
      ⟨⟨7, 9⟩, 2⟩ 3 (by decide) (by decide) (by decide) (by decide)⟩

/-! ### Run machinery: step shape and run invariant -/

/-- The valid (bucket, index) keys the supplier offered during a run: one
candidate per trial whose drawn index lands inside the bucket's real record
count.  These are the records reachable in that run. -/
def availableKeys : List (ChildResponse × Nat) → List SampledMeasurementKey
  | [] => []
  | (ChildResponse.advanced b, j) :: rest =>
    if j < b.recordCount then toKey (b.bucketId, j) :: availableKeys rest
    else availableKeys rest
  | (_, _) :: rest => availableKeys rest

theorem producedPairs_cons (o : StageOutput) (outs : List StageOutput) :
    producedPairs (o :: outs) = producedPairs [o] ++ producedPairs outs := by
  cases o <;> simp [producedPairs]

theorem SampledMeasurementKey.beq_refl (k : SampledMeasurementKey) :
    SampledMeasurementKey.beq k k = true := by
  rw [SampledMeasurementKey.beq_iff_eq]

theorem mem_availableKeys_cons (p : ChildResponse × Nat)
    (rest : List (ChildResponse × Nat)) (k : SampledMeasurementKey)
    (h : k ∈ availableKeys rest) : k ∈ availableKeys (p :: rest) := by
  obtain ⟨resp, j⟩ := p
  cases resp <;> simp [availableKeys, h]
  split <;> simp [h]

theorem doWork_of_isEOF (s : StageState) (resp : ChildResponse) (j : Nat)
    (h : isEOF s = true) : doWork s resp j = (s, StageOutput.eof) := by
  simp [doWork, h]

theorem doWork_step_shape (s : StageState) (resp : ChildResponse) (j : Nat) :
    ((doWork s resp j).1 = s ∧ producedPairs [(doWork s resp j).2] = [])
    ∨ ((doWork s resp j).1 = { s with nRejected := s.nRejected + 1 }
        ∧ producedPairs [(doWork s resp j).2] = [])
    ∨ (∃ b, resp = ChildResponse.advanced b ∧ isEOF s = false ∧ j < b.recordCount
        ∧ seenContains s.seenSet (toKey (b.bucketId, j)) = false
        ∧ (doWork s resp j).1
            = { s with
                  seenSet := toKey (b.bucketId, j) :: s.seenSet
                  nSampledSoFar := s.nSampledSoFar + 1 }
        ∧ (doWork s resp j).2 = StageOutput.advanced b.bucketId j) := by
  by_cases hEof : isEOF s = true
  · left
    rw [doWork_of_isEOF s resp j hEof]
    exact ⟨rfl, rfl⟩
  · rw [Bool.not_eq_true] at hEof
    cases resp with
    | needTime => left; simp [doWork, hEof, producedPairs]
    | needYield => left; simp [doWork, hEof, producedPairs]
    | eof => left; simp [doWork, hEof, producedPairs]
    | advanced b =>
      by_cases hcount : b.recordCount ≤ j
      · right; left
        simp [doWork, hEof, hcount, producedPairs]
      · by_cases hseen : seenContains s.seenSet (toKey (b.bucketId, j)) = true
        · right; left
          simp [doWork, hEof, hcount, hseen, producedPairs]
        · rw [Bool.not_eq_true] at hseen
          right; right
          refine ⟨b, rfl, hEof, by omega, hseen, ?_, ?_⟩ <;>
            simp [doWork, hEof, hcount, hseen]

theorem runStage_cons_fst (s : StageState) (resp : ChildResponse) (j : Nat)
    (rest : List (ChildResponse × Nat)) :
    (runStage s ((resp, j) :: rest)).1 = (runStage (doWork s resp j).1 rest).1 := rfl

theorem runStage_cons_snd (s : StageState) (resp : ChildResponse) (j : Nat)
    (rest : List (ChildResponse × Nat)) :
    (runStage s ((resp, j) :: rest)).2
      = (doWork s resp j).2 :: (runStage (doWork s resp j).1 rest).2 := rfl

theorem numProduced_cons (o : StageOutput) (outs : List StageOutput) :
    numProduced (o :: outs) = numProduced [o] + numProduced outs := by
  unfold numProduced
  rw [producedPairs_cons o outs, List.length_append]

theorem producedKeys_cons (o : StageOutput) (outs : List StageOutput) :
    producedKeys (o :: outs) = producedKeys [o] ++ producedKeys outs := by
  unfold producedKeys
  rw [producedPairs_cons o outs, List.map_append]

/-- Coarse classification of one `doWork` call: either the counters of
interest and the seen set are untouched and nothing is produced, or the call
is an accepting trial with its exact state change. -/
theorem doWork_step_coarse (s : StageState) (resp : ChildResponse) (j : Nat) :
    ((doWork s resp j).1.sampleSize = s.sampleSize
      ∧ (doWork s resp j).1.nSampledSoFar = s.nSampledSoFar
      ∧ (doWork s resp j).1.seenSet = s.seenSet
      ∧ producedPairs [(doWork s resp j).2] = [])
    ∨ (∃ b, resp = ChildResponse.advanced b ∧ isEOF s = false ∧ j < b.recordCount
        ∧ seenContains s.seenSet (toKey (b.bucketId, j)) = false
        ∧ (doWork s resp j).1.sampleSize = s.sampleSize
        ∧ (doWork s resp j).1.nSampledSoFar = s.nSampledSoFar + 1
        ∧ (doWork s resp j).1.seenSet = toKey (b.bucketId, j) :: s.seenSet
        ∧ (doWork s resp j).2 = StageOutput.advanced b.bucketId j) := by
  rcases doWork_step_shape s resp j with ⟨h1, h2⟩ | ⟨h1, h2⟩ |
    ⟨b, hresp, hEof, hjlt, hfresh, h1, h2⟩
  · exact Or.inl ⟨by rw [h1], by rw [h1], by rw [h1], h2⟩
  · exact Or.inl ⟨by rw [h1], by rw [h1], by rw [h1], h2⟩
  · exact Or.inr ⟨b, hresp, hEof, hjlt, hfresh, by rw [h1], by rw [h1], by rw [h1], h2⟩

/-- The run invariant: along any run, the target is preserved, the accepted
counter counts exactly the produced records, the seen set is exactly the
produced keys on top of the starting seen set, the produced keys are fresh
with respect to the starting seen set, pairwise distinct, all offered by the
supplier, and the accepted counter never passes the target. -/
theorem runStage_invariant (inputs : List (ChildResponse × Nat)) :
    ∀ s : StageState,
    (runStage s inputs).1.sampleSize = s.sampleSize
    ∧ (runStage s inputs).1.nSampledSoFar
        = s.nSampledSoFar + numProduced (runStage s inputs).2
    ∧ (runStage s inputs).1.seenSet
        = (producedKeys (runStage s inputs).2).reverse ++ s.seenSet
    ∧ (∀ k ∈ producedKeys (runStage s inputs).2, seenContains s.seenSet k = false)
    ∧ (producedKeys (runStage s inputs).2).Nodup
    ∧ (∀ k ∈ producedKeys (runStage s inputs).2, k ∈ availableKeys inputs)
    ∧ (runStage s inputs).1.nSampledSoFar ≤ max s.nSampledSoFar s.sampleSize := by
  induction inputs with
  | nil =>
    intro s
    refine ⟨rfl, by simp [runStage, numProduced, producedPairs],
      by simp [runStage, producedKeys, producedPairs],
      by simp [runStage, producedKeys, producedPairs],
      by simp [runStage, producedKeys, producedPairs],
      by simp [runStage, producedKeys, producedPairs],
      Nat.le_max_left _ _⟩
  | cons hd rest ih =>
    intro s
    obtain ⟨resp, j⟩ := hd
    rw [runStage_cons_fst, runStage_cons_snd]
    obtain ⟨ih1, ih2, ih3, ih4, ih5, ih6, ih7⟩ := ih (doWork s resp j).1
    rcases doWork_step_coarse s resp j with ⟨hss, hns, hsn, h2⟩ |
      ⟨b, hresp, hEof, hjlt, hfresh, hss, hns, hsn, h2⟩
    · have hk2 : producedKeys [(doWork s resp j).2] = [] := by
        simp [producedKeys, h2]
      have hn2 : numProduced [(doWork s resp j).2] = 0 := by
        simp [numProduced, h2]
      refine ⟨?_, ?_, ?_, ?_, ?_, ?_, ?_⟩
      · rw [ih1, hss]
      · rw [ih2, hns, numProduced_cons, hn2]
        omega
      · rw [producedKeys_cons, hk2, List.nil_append, ih3, hsn]
      · intro k hk
        rw [producedKeys_cons, hk2, List.nil_append] at hk
        have h5 := ih4 k hk
        rw [hsn] at h5
        exact h5
      · rw [producedKeys_cons, hk2, List.nil_append]
        exact ih5
      · intro k hk
        rw [producedKeys_cons, hk2, List.nil_append] at hk
        exact mem_availableKeys_cons _ _ _ (ih6 k hk)
      · calc (runStage (doWork s resp j).1 rest).1.nSampledSoFar
            ≤ max (doWork s resp j).1.nSampledSoFar (doWork s resp j).1.sampleSize := ih7
          _ = max s.nSampledSoFar s.sampleSize := by rw [hns, hss]
    · have hk2 : producedKeys [(doWork s resp j).2] = [toKey (b.bucketId, j)] := by
        simp [producedKeys, producedPairs, h2]
      have hn2 : numProduced [(doWork s resp j).2] = 1 := by
        simp [numProduced, producedPairs, h2]
      refine ⟨?_, ?_, ?_, ?_, ?_, ?_, ?_⟩
      · rw [ih1, hss]
      · rw [ih2, hns, numProduced_cons, hn2]
        omega
      · rw [producedKeys_cons, hk2, ih3, hsn]
        simp
      · intro k hk
        rw [producedKeys_cons, hk2, List.singleton_append] at hk
        rcases List.mem_cons.mp hk with h | h
        · subst h
          exact hfresh
        · have h5 := ih4 k h
          rw [hsn, seenContains_cons] at h5
          simp only [Bool.or_eq_false_iff] at h5
          exact h5.2
      · rw [producedKeys_cons, hk2, List.singleton_append, List.nodup_cons]
        refine ⟨?_, ih5⟩
        intro hmem
        have h5 := ih4 _ hmem
        rw [hsn, seenContains_cons] at h5
        simp [SampledMeasurementKey.beq_refl] at h5
      · intro k hk
        rw [producedKeys_cons, hk2, List.singleton_append] at hk
        rw [hresp]
        rcases List.mem_cons.mp hk with h | h
        · subst h
          simp [availableKeys, hjlt]
        · have h6 := ih6 k h
          simp only [availableKeys, if_pos hjlt]
          exact List.mem_cons_of_mem _ h6
      · have hEof' : s.nSampledSoFar < s.sampleSize := by
          simp only [isEOF, decide_eq_false_iff_not, not_le] at hEof
          exact hEof
        calc (runStage (doWork s resp j).1 rest).1.nSampledSoFar
            ≤ max (doWork s resp j).1.nSampledSoFar (doWork s resp j).1.sampleSize := ih7
          _ = max (s.nSampledSoFar + 1) s.sampleSize := by rw [hns, hss]
          _ = s.sampleSize := Nat.max_eq_right (by omega)
          _ ≤ max s.nSampledSoFar s.sampleSize := Nat.le_max_right _ _

/-! ### Claim C1: the exhaustion query -/

theorem reachable_invariant (w n c : Nat) (s : StageState)
    (h : Reachable (SampleFromTimeseriesBucket.init w n c) s) :
    s.sampleSize = n ∧ s.nSampledSoFar ≤ n := by
  induction h with
  | refl => exact ⟨rfl, Nat.zero_le n⟩
  | step s' resp j hr ih =>
    rcases doWork_step_coarse s' resp j with ⟨hss, hns, _, _⟩ |
      ⟨b, _, hEof, _, _, hss, hns, _, _⟩
    · exact ⟨by rw [hss, ih.1], by rw [hns]; exact ih.2⟩
    · refine ⟨by rw [hss, ih.1], ?_⟩
      have hlt : s'.nSampledSoFar < s'.sampleSize := by
        simp only [isEOF, decide_eq_false_iff_not, not_le] at hEof
        exact hEof
      rw [hns]
      rw [ih.1] at hlt
      omega

/-- C1: `isEOF` is a pure function of the accepted-sample counter (its value
is exactly the comparison of that counter with the target), it answers true
iff the accepted-sample count is at least the target sample size, and on
every reachable state this coincides with the count being exactly the
target. -/
theorem isEOF_iff_sampled_reaches_target (w n c : Nat) (s : StageState)
    (h : Reachable (SampleFromTimeseriesBucket.init w n c) s) :
    (isEOF s = true ↔ n ≤ s.nSampledSoFar)
    ∧ (isEOF s = true ↔ s.nSampledSoFar = n)
    ∧ isEOF s = decide (n ≤ s.nSampledSoFar) := by
  obtain ⟨hsz, hle⟩ := reachable_invariant w n c s h
  refine ⟨?_, ?_, ?_⟩
  · simp [isEOF, hsz]
  · constructor
    · intro ht
      simp only [isEOF, hsz, decide_eq_true_eq] at ht
      omega
    · intro he
      simp [isEOF, hsz, he]
  · simp [isEOF, hsz]

/-- Concrete instance of C1 at the freshly constructed stage with target 2. -/
theorem isEOF_iff_sampled_reaches_target_witness :
    (isEOF (SampleFromTimeseriesBucket.init 0 2 4) = true
        ↔ 2 ≤ (SampleFromTimeseriesBucket.init 0 2 4).nSampledSoFar)
    ∧ (isEOF (SampleFromTimeseriesBucket.init 0 2 4) = true
        ↔ (SampleFromTimeseriesBucket.init 0 2 4).nSampledSoFar = 2)
    ∧ isEOF (SampleFromTimeseriesBucket.init 0 2 4)
        = decide (2 ≤ (SampleFromTimeseriesBucket.init 0 2 4).nSampledSoFar) :=
  isEOF_iff_sampled_reaches_target 0 2 4 _ Reachable.refl

/-! ### Claim C4: exhaustion is monotone -/

/-- C4: once `isEOF` reports true, every subsequent `doWork` call leaves the
state unchanged (so every subsequent exhaustion query still reports true) and
reports exhaustion — in particular no further record is ever produced. -/
theorem isEOF_monotone (s : StageState) (h : isEOF s = true)
    (inputs : List (ChildResponse × Nat)) :
    runStage s inputs = (s, inputs.map fun _ => StageOutput.eof) := by
  induction inputs with
  | nil => simp [runStage]
  | cons hd rest ih =>
    obtain ⟨resp, j⟩ := hd
    simp [runStage, doWork_of_isEOF s resp j h, ih]

/-- Concrete instance of C4: a stage with target 0 is exhausted at birth and
answers `eof` to both a supplier stall and an offered bucket. -/
theorem isEOF_monotone_witness :
    isEOF (SampleFromTimeseriesBucket.init 0 0 4) = true
    ∧ runStage (SampleFromTimeseriesBucket.init 0 0 4)
        [(ChildResponse.needTime, 0), (ChildResponse.advanced ⟨⟨1, 2⟩, 3⟩, 1)]
        = (SampleFromTimeseriesBucket.init 0 0 4,
            [StageOutput.eof, StageOutput.eof]) :=
  ⟨by decide,
    isEOF_monotone (SampleFromTimeseriesBucket.init 0 0 4) (by decide)
      [(ChildResponse.needTime, 0), (ChildResponse.advanced ⟨⟨1, 2⟩, 3⟩, 1)]⟩

/-! ### Claim C2: no duplicate (bucket, index) pairs -/

/-- C2: in every run from a freshly constructed stage, the list of
(bucket identifier, measurement index) pairs behind the produced records has
no repeated pair. -/
theorem run_produces_no_duplicate_pairs (w n c : Nat)
    (inputs : List (ChildResponse × Nat)) :
    (producedPairs (runStage (SampleFromTimeseriesBucket.init w n c) inputs).2).Nodup := by
  have h := (runStage_invariant inputs (SampleFromTimeseriesBucket.init w n c)).2.2.2.2.1
  unfold producedKeys at h
  exact h.of_map

/-! ### Claim C6: the seen set tracks exactly the produced records -/

/-- C6: from a freshly constructed stage, after any run the seen set has
exactly one entry per record output so far (its size equals the accepted
count and it holds precisely the keys of the produced records), and every
single `doWork` call only grows the seen set (the previous set is a suffix
of the new one; entries are never removed). -/
theorem seenSet_tracks_produced (w n c : Nat)
    (inputs : List (ChildResponse × Nat)) :
    ((runStage (SampleFromTimeseriesBucket.init w n c) inputs).1.seenSet).length
        = (runStage (SampleFromTimeseriesBucket.init w n c) inputs).1.nSampledSoFar
    ∧ (runStage (SampleFromTimeseriesBucket.init w n c) inputs).1.seenSet
        = (producedKeys (runStage (SampleFromTimeseriesBucket.init w n c) inputs).2).reverse
    ∧ ∀ (s : StageState) (resp : ChildResponse) (j : Nat),
        s.seenSet.IsSuffix (doWork s resp j).1.seenSet := by
  obtain ⟨h1, h2, h3, h4, h5, h6, h7⟩ :=
    runStage_invariant inputs (SampleFromTimeseriesBucket.init w n c)
  refine ⟨?_, ?_, ?_⟩
  · rw [h3, h2]
    simp [producedKeys, numProduced, SampleFromTimeseriesBucket.init]
  · rw [h3]
    simp [SampleFromTimeseriesBucket.init]
  · intro s resp j
    rcases doWork_step_coarse s resp j with ⟨_, _, hsn, _⟩ |
      ⟨b, _, _, _, _, _, _, hsn, _⟩
    · rw [hsn]
    · rw [hsn]
      exact List.suffix_cons _ _

/-! ### Claim C3: the sample-size bound -/

theorem int32ofInt64_of_small (i : Int) (h0 : 0 ≤ i) (h1 : i < 2 ^ 31) :
    int32ofInt64 i = i := by
  unfold int32ofInt64
  rw [Int.emod_eq_of_lt (by omega) (by omega)]
  omega

theorem toKey_zero (bid : OID) : toKey (bid, 0) = ⟨bid, 0⟩ := by
  have h0 : int32ofInt64 0 = 0 := int32ofInt64_of_small 0 (by omega) (by norm_num)
  simp [toKey, SampledMeasurementKey.make, h0]

/-- A supplier trace with one fresh singleton bucket per trial: bucket `k-1`
down to bucket `0`, each holding one record, with drawn index 0. -/
def freshInputs : Nat → List (ChildResponse × Nat)
  | 0 => []
  | k + 1 => (ChildResponse.advanced ⟨⟨k, 0⟩, 1⟩, 0) :: freshInputs k

theorem freshInputs_attain (k : Nat) :
    ∀ s : StageState, s.nSampledSoFar + k ≤ s.sampleSize →
    (∀ i, i < k → seenContains s.seenSet (toKey (⟨i, 0⟩, 0)) = false) →
    numProduced (runStage s (freshInputs k)).2 = k := by
  induction k with
  | zero =>
    intro s _ _
    simp [freshInputs, runStage, numProduced, producedPairs]
  | succ k ih =>
    intro s hroom hfresh
    have hEof : isEOF s = false := by
      simp only [isEOF]
      rw [decide_eq_false_iff_not]
      omega
    have hkey : seenContains s.seenSet (toKey ((⟨k, 0⟩ : OID), 0)) = false :=
      hfresh k (Nat.lt_succ_self k)
    have hstep : doWork s (ChildResponse.advanced ⟨⟨k, 0⟩, 1⟩) 0
        = ({ s with
              seenSet := toKey ((⟨k, 0⟩ : OID), 0) :: s.seenSet
              nSampledSoFar := s.nSampledSoFar + 1 },
            StageOutput.advanced ⟨k, 0⟩ 0) := by
      simp [doWork, hEof, hkey]
    have hfresh' : ∀ i, i < k →
        seenContains (toKey ((⟨k, 0⟩ : OID), 0) :: s.seenSet) (toKey (⟨i, 0⟩, 0)) = false := by
      intro i hik
      rw [seenContains_cons]
      have hne : SampledMeasurementKey.beq (toKey ((⟨k, 0⟩ : OID), 0))
          (toKey ((⟨i, 0⟩ : OID), 0)) = false := by
        rw [Bool.eq_false_iff]
        intro ht
        have := (SampledMeasurementKey.beq_iff_eq _ _).mp ht
        rw [toKey_zero, toKey_zero] at this
        have hcomp := congrArg SampledMeasurementKey.bucketId this
        simp only [OID.mk.injEq] at hcomp
        omega
      rw [hne, hfresh i (by omega), Bool.or_self]
    have htail := ih { s with
        seenSet := toKey ((⟨k, 0⟩ : OID), 0) :: s.seenSet
        nSampledSoFar := s.nSampledSoFar + 1 }
      (by simp; omega) hfresh'
    show numProduced (runStage s ((ChildResponse.advanced ⟨⟨k, 0⟩, 1⟩, 0) :: freshInputs k)).2 = k + 1
    rw [runStage_cons_snd, hstep]
    rw [numProduced_cons]
    simp only [numProduced, producedPairs, List.length_cons, List.length_nil] at htail ⊢
    omega

/-- C3: in every run from a freshly constructed stage the number of records
produced never exceeds the target sample size, nor the number of distinct
records the supplier made reachable in that run; and with a sufficiently
large supplier (one fresh singleton bucket per trial) it reaches the target
exactly. -/
theorem produced_count_bound (w n c : Nat)
    (inputs : List (ChildResponse × Nat)) :
    numProduced (runStage (SampleFromTimeseriesBucket.init w n c) inputs).2 ≤ n
    ∧ numProduced (runStage (SampleFromTimeseriesBucket.init w n c) inputs).2
        ≤ ((availableKeys inputs).dedup).length
    ∧ numProduced (runStage (SampleFromTimeseriesBucket.init w n c) (freshInputs n)).2 = n := by
  obtain ⟨h1, h2, h3, h4, h5, h6, h7⟩ :=
    runStage_invariant inputs (SampleFromTimeseriesBucket.init w n c)
  refine ⟨?_, ?_, ?_⟩
  · have e1 : (SampleFromTimeseriesBucket.init w n c).nSampledSoFar = 0 := rfl
    have e2 : (SampleFromTimeseriesBucket.init w n c).sampleSize = n := rfl
    rw [e1] at h2
    rw [e1, e2, Nat.max_eq_right (Nat.zero_le n)] at h7
    omega
  · have hlen : numProduced (runStage (SampleFromTimeseriesBucket.init w n c) inputs).2
        = (producedKeys (runStage (SampleFromTimeseriesBucket.init w n c) inputs).2).length := by
      simp [numProduced, producedKeys]
    rw [hlen]
    have hcard : (producedKeys (runStage (SampleFromTimeseriesBucket.init w n c) inputs).2).toFinset.card
        = (producedKeys (runStage (SampleFromTimeseriesBucket.init w n c) inputs).2).length :=
      List.toFinset_card_of_nodup h5
    have hsub : (producedKeys (runStage (SampleFromTimeseriesBucket.init w n c) inputs).2).toFinset
        ⊆ (availableKeys inputs).toFinset := by
      intro x hx
      rw [List.mem_toFinset] at hx ⊢
      exact h6 x hx
    calc (producedKeys (runStage (SampleFromTimeseriesBucket.init w n c) inputs).2).length
        = (producedKeys (runStage (SampleFromTimeseriesBucket.init w n c) inputs).2).toFinset.card :=
          hcard.symm
      _ ≤ (availableKeys inputs).toFinset.card := Finset.card_le_card hsub
      _ = ((availableKeys inputs).dedup).length := List.card_toFinset _
  · exact freshInputs_attain n (SampleFromTimeseriesBucket.init w n c)
      (by simp [SampleFromTimeseriesBucket.init])
      (fun i _ => by simp [SampleFromTimeseriesBucket.init, seenContains])

/-! ### Claim C8: one trial per call -/

/-- C8: every `doWork` call performs at most one trial — the total number of
trials charged (rejections plus acceptances) grows by at most one — and the
call is exactly one of: exhaustion report, try-again (with counters of one
unsuccessful trial at most and the seen set untouched), yield or fatal
propagation with no state change, or the production of one materialized
record; there is no internal retry loop. -/
theorem doWork_performs_at_most_one_trial (s : StageState)
    (resp : ChildResponse) (j : Nat) :
    ((doWork s resp j).1.nRejected + (doWork s resp j).1.nSampledSoFar
        ≤ s.nRejected + s.nSampledSoFar + 1)
    ∧ ((doWork s resp j = (s, StageOutput.eof) ∧ isEOF s = true)
      ∨ ((doWork s resp j).2 = StageOutput.needTime
          ∧ (doWork s resp j).1.nSampledSoFar = s.nSampledSoFar
          ∧ (doWork s resp j).1.seenSet = s.seenSet
          ∧ (doWork s resp j).1.nRejected ≤ s.nRejected + 1)
      ∨ doWork s resp j = (s, StageOutput.needYield)
      ∨ doWork s resp j = (s, StageOutput.fatal)
      ∨ (∃ b, resp = ChildResponse.advanced b
          ∧ (doWork s resp j).2 = StageOutput.advanced b.bucketId j
          ∧ (doWork s resp j).1.nSampledSoFar = s.nSampledSoFar + 1
          ∧ (doWork s resp j).1.nRejected = s.nRejected)) := by
  by_cases hEof : isEOF s = true
  · rw [doWork_of_isEOF s resp j hEof]
    refine ⟨?_, Or.inl ⟨rfl, hEof⟩⟩
    show s.nRejected + s.nSampledSoFar ≤ s.nRejected + s.nSampledSoFar + 1
    omega
  · rw [Bool.not_eq_true] at hEof
    cases resp with
    | needTime =>
      have hd : doWork s ChildResponse.needTime j = (s, StageOutput.needTime) := by
        simp [doWork, hEof]
      rw [hd]
      refine ⟨?_, Or.inr (Or.inl ⟨rfl, rfl, rfl, ?_⟩)⟩
      · show s.nRejected + s.nSampledSoFar ≤ s.nRejected + s.nSampledSoFar + 1
        omega
      · show s.nRejected ≤ s.nRejected + 1
        omega
    | needYield =>
      have hd : doWork s ChildResponse.needYield j = (s, StageOutput.needYield) := by
        simp [doWork, hEof]
      rw [hd]
      refine ⟨?_, Or.inr (Or.inr (Or.inl rfl))⟩
      show s.nRejected + s.nSampledSoFar ≤ s.nRejected + s.nSampledSoFar + 1
      omega
    | eof =>
      have hd : doWork s ChildResponse.eof j = (s, StageOutput.fatal) := by
        simp [doWork, hEof]
      rw [hd]
      refine ⟨?_, Or.inr (Or.inr (Or.inr (Or.inl rfl)))⟩
      show s.nRejected + s.nSampledSoFar ≤ s.nRejected + s.nSampledSoFar + 1
      omega
    | advanced b =>
      by_cases hcount : b.recordCount ≤ j
      · have hd : doWork s (ChildResponse.advanced b) j
            = ({ s with nRejected := s.nRejected + 1 }, StageOutput.needTime) := by
          simp [doWork, hEof, hcount]
        rw [hd]
        refine ⟨?_, Or.inr (Or.inl ⟨rfl, rfl, rfl, ?_⟩)⟩
        · show s.nRejected + 1 + s.nSampledSoFar ≤ s.nRejected + s.nSampledSoFar + 1
          omega
        · show s.nRejected + 1 ≤ s.nRejected + 1
          omega
      · by_cases hseen : seenContains s.seenSet (toKey (b.bucketId, j)) = true
        · have hd : doWork s (ChildResponse.advanced b) j
              = ({ s with nRejected := s.nRejected + 1 }, StageOutput.needTime) := by
            simp [doWork, hEof, hcount, hseen]
          rw [hd]
          refine ⟨?_, Or.inr (Or.inl ⟨rfl, rfl, rfl, ?_⟩)⟩
          · show s.nRejected + 1 + s.nSampledSoFar ≤ s.nRejected + s.nSampledSoFar + 1
            omega
          · show s.nRejected + 1 ≤ s.nRejected + 1
            omega
        · rw [Bool.not_eq_true] at hseen
          have hd : doWork s (ChildResponse.advanced b) j
              = ({ s with
                    seenSet := toKey (b.bucketId, j) :: s.seenSet
                    nSampledSoFar := s.nSampledSoFar + 1 },
                  StageOutput.advanced b.bucketId j) := by
            simp [doWork, hEof, hcount, hseen]
          rw [hd]
          refine ⟨?_, Or.inr (Or.inr (Or.inr (Or.inr ⟨b, rfl, rfl, rfl, rfl⟩)))⟩
          show s.nRejected + (s.nSampledSoFar + 1) ≤ s.nRejected + s.nSampledSoFar + 1
          omega
